import Mathlib

/-!
# Verification of the JobScope job-market-analytics pipeline

Shallow embedding of the repository's data pipeline (schema resolver,
canonicalizer/dedup, skill-graph builder, recommender, orchestrator,
artifact exporter) and of the web presentation layer's artifact types
and loaders, together with proofs of the specified properties.

The pipeline core (the Python sources under `dsde/src/`) is not part of
the provided source tree; those components are modelled from the spec,
as marked on each definition.  The web layer (`web/src/lib/artifacts`,
`web/app/projects/jobscope/components`) is embedded from the TypeScript
source directly.

Strings are manipulated through their character lists so that every
definition evaluates by kernel reduction.
-/

namespace JobScope

/-! ## Text primitives

Character-list implementations of lower-casing, splitting and
lexicographic comparison.  They denote the same functions as the
library string routines used by the original code. -/

/-- Lower-case every character of a string. -/
def lowerStr (s : String) : String := ⟨s.data.map Char.toLower⟩

/-- Split a character list into maximal runs of characters not matched by
`p`; `cur` is the current run, reversed. -/
def splitRuns (p : Char → Bool) : List Char → List Char → List String
  | [], cur => if cur.isEmpty then [] else [⟨cur.reverse⟩]
  | c :: rest, cur =>
      if p c then
        if cur.isEmpty then splitRuns p rest []
        else ⟨cur.reverse⟩ :: splitRuns p rest []
      else splitRuns p rest (c :: cur)

/-- The non-empty tokens of a string, split at characters matched by `p`. -/
def tokensBy (p : Char → Bool) (s : String) : List String :=
  splitRuns p s.data []

/-- Join words with single spaces. -/
def joinWords : List String → String
  | [] => ""
  | [w] => w
  | w :: rest => w ++ " " ++ joinWords rest

/-- Modelled from the spec: `normalize` lower-cases, trims, and collapses
whitespace/punctuation (missing source: `dsde/src` canonicalizer). -/
def normalize (s : String) : String :=
  joinWords (tokensBy (fun c => !c.isAlphanum)
    ⟨s.data.map Char.toLower⟩)

/-- Modelled from the spec: `date_part(published_at)` keeps the calendar-date
part of a timestamp string (missing source: `dsde/src` canonicalizer). -/
def datePart (s : String) : String :=
  ⟨s.data.takeWhile (fun c => c ≠ 'T' && c ≠ ' ')⟩

/-- Boolean lexicographic strict comparison of character lists. -/
def lexLtB : List Char → List Char → Bool
  | [], [] => false
  | [], _ :: _ => true
  | _ :: _, [] => false
  | a :: as, b :: bs =>
      if a < b then true else if b < a then false else lexLtB as bs

/-- Ascending lexical (strict) order on strings. -/
def strLt (a b : String) : Prop := lexLtB a.data b.data = true

/-- Ascending lexical order on strings (the negation of the reversed
strict order). -/
def strLe (a b : String) : Prop := lexLtB b.data a.data = false

instance : DecidableRel strLt := fun a b =>
  inferInstanceAs (Decidable (lexLtB a.data b.data = true))

instance : DecidableRel strLe := fun a b =>
  inferInstanceAs (Decidable (lexLtB b.data a.data = false))

lemma lexLtB_asymm : ∀ {x y : List Char},
    lexLtB x y = true → lexLtB y x = false
  | [], [], h => by simp [lexLtB] at h
  | [], _ :: _, _ => by simp [lexLtB]
  | _ :: _, [], h => by simp [lexLtB] at h
  | a :: as, b :: bs, h => by
      unfold lexLtB at h ⊢
      rcases lt_trichotomy a b with hab | hab | hab
      · rw [if_neg (asymm hab), if_pos hab]
      · subst hab
        rw [if_neg (lt_irrefl a)] at h ⊢
        rw [if_neg (lt_irrefl a)] at h ⊢
        exact lexLtB_asymm h
      · rw [if_neg (asymm hab), if_pos hab] at h
        exact absurd h (by simp)

lemma lexLtB_trans : ∀ {x y z : List Char},
    lexLtB x y = true → lexLtB y z = true → lexLtB x z = true
  | [], [], _, h, _ => by simp [lexLtB] at h
  | [], _ :: _, [], _, h => by simp [lexLtB] at h
  | [], _ :: _, _ :: _, _, _ => by simp [lexLtB]
  | _ :: _, [], _, h, _ => by simp [lexLtB] at h
  | _ :: _, _ :: _, [], _, h => by simp [lexLtB] at h
  | a :: as, b :: bs, c :: cs, h1, h2 => by
      unfold lexLtB at h1 h2 ⊢
      rcases lt_trichotomy a b with hab | hab | hab
      · rcases lt_trichotomy b c with hbc | hbc | hbc
        · rw [if_pos (hab.trans hbc)]
        · subst hbc; rw [if_pos hab]
        · rw [if_neg (asymm hbc), if_pos hbc] at h2
          exact absurd h2 (by simp)
      · subst hab
        rw [if_neg (lt_irrefl a), if_neg (lt_irrefl a)] at h1
        rcases lt_trichotomy a c with hac | hac | hac
        · rw [if_pos hac]
        · subst hac
          rw [if_neg (lt_irrefl a), if_neg (lt_irrefl a)] at h2 ⊢
          exact lexLtB_trans h1 h2
        · rw [if_neg (asymm hac), if_pos hac] at h2
          exact absurd h2 (by simp)
      · rw [if_neg (asymm hab), if_pos hab] at h1
        exact absurd h1 (by simp)

lemma lexLtB_eq_of_not : ∀ {x y : List Char},
    lexLtB x y = false → lexLtB y x = false → x = y
  | [], [], _, _ => rfl
  | [], _ :: _, h, _ => by simp [lexLtB] at h
  | _ :: _, [], _, h => by simp [lexLtB] at h
  | a :: as, b :: bs, h1, h2 => by
      unfold lexLtB at h1 h2
      rcases lt_trichotomy a b with hab | hab | hab
      · rw [if_pos hab] at h1
        exact absurd h1 (by simp)
      · subst hab
        rw [if_neg (lt_irrefl a), if_neg (lt_irrefl a)] at h1 h2
        rw [lexLtB_eq_of_not h1 h2]
      · rw [if_neg (asymm hab), if_pos hab] at h2
        exact absurd h2 (by simp)

lemma str_eq_of_data_eq {a b : String} (h : a.data = b.data) : a = b := by
  cases a
  cases b
  exact congrArg String.mk h

lemma strLe_total (a b : String) : strLe a b ∨ strLe b a := by
  unfold strLe
  cases h : lexLtB b.data a.data with
  | false => exact Or.inl rfl
  | true => exact Or.inr (lexLtB_asymm h)

lemma strLe_trans {a b c : String} (h1 : strLe a b) (h2 : strLe b c) :
    strLe a c := by
  unfold strLe at h1 h2 ⊢
  cases h : lexLtB c.data a.data with
  | false => rfl
  | true =>
      exfalso
      cases hbc : lexLtB b.data c.data with
      | true =>
          have := lexLtB_trans hbc h
          rw [this] at h1
          exact absurd h1 (by simp)
      | false =>
          have : b.data = c.data := lexLtB_eq_of_not hbc h2
          rw [← this] at h
          rw [h] at h1
          exact absurd h1 (by simp)

lemma strLt_trans {a b c : String} (h1 : strLt a b) (h2 : strLt b c) :
    strLt a c := lexLtB_trans h1 h2

lemma strLt_asymm {a b : String} (h : strLt a b) : ¬ strLt b a := by
  unfold strLt at h ⊢
  rw [lexLtB_asymm h]
  simp

lemma strLt_or_ge (a b : String) : strLt a b ∨ strLt b a ∨ a = b := by
  unfold strLt
  cases h1 : lexLtB a.data b.data with
  | true => exact Or.inl rfl
  | false =>
      cases h2 : lexLtB b.data a.data with
      | true => exact Or.inr (Or.inl rfl)
      | false => exact Or.inr (Or.inr (str_eq_of_data_eq
          (lexLtB_eq_of_not h1 h2)))

lemma strLe_of_eq {a b : String} (h : a = b) : strLe a b := by
  subst h
  unfold strLe
  cases hl : lexLtB a.data a.data with
  | false => rfl
  | true => exact absurd (lexLtB_asymm hl) (by rw [hl]; simp)

lemma strLe_of_lt {a b : String} (h : strLt a b) : strLe a b :=
  lexLtB_asymm h

/-! ## Data model: ResolvedRecord and CanonicalJob -/

/-- A `RawRecord` after alias resolution into canonical field names
(spec §3): one record per raw row. -/
structure ResolvedRecord where
  title : String
  company : String
  location_text : String
  skills_raw : Option String
  salary_min : Option Int
  salary_max : Option Int
  published_at : String
  source : String
  source_url : Option String
  ingested_at : Nat
  deriving Repr, DecidableEq

/-- The dedup key of a resolved record (spec §4.3):
`(normalize(title), normalize(company), normalize(location_text),
date_part(published_at))`. -/
def dedupKey (r : ResolvedRecord) : String × String × String × String :=
  (normalize r.title, normalize r.company, normalize r.location_text,
    datePart r.published_at)

/-- Number of populated (non-null / non-empty) canonical fields of a record,
used by the duplicate-retention rule (spec §4.3). -/
def nonNullCount (r : ResolvedRecord) : Nat :=
  (if r.title ≠ "" then 1 else 0) +
  (if r.company ≠ "" then 1 else 0) +
  (if r.location_text ≠ "" then 1 else 0) +
  (if r.skills_raw.isSome then 1 else 0) +
  (if r.salary_min.isSome then 1 else 0) +
  (if r.salary_max.isSome then 1 else 0) +
  (if r.published_at ≠ "" then 1 else 0) +
  (if r.source_url.isSome then 1 else 0)

/-- Modelled from the spec: retention rule among exact duplicates — keep the
record with the most non-null canonical fields populated; on a tie, keep the
earliest `ingested_at` (missing source: `dsde/src` canonicalizer).
`x` is the incumbent, `r` the newly seen duplicate. -/
def retain (x r : ResolvedRecord) : ResolvedRecord :=
  if nonNullCount r > nonNullCount x then r
  else if nonNullCount r = nonNullCount x ∧ r.ingested_at < x.ingested_at then r
  else x

/-- Modelled from the spec: fold step of the dedup engine — if a record with
the same dedup key is already retained, apply the retention rule in place;
otherwise append the record (missing source: `dsde/src` canonicalizer). -/
def upsertDedup (acc : List ResolvedRecord) (r : ResolvedRecord) :
    List ResolvedRecord :=
  if acc.any (fun x => dedupKey x == dedupKey r) then
    acc.map (fun x => if dedupKey x == dedupKey r then retain x r else x)
  else acc ++ [r]

/-- Modelled from the spec: the dedup pass over the resolved records
(missing source: `dsde/src` canonicalizer). -/
def dedupRecords (rs : List ResolvedRecord) : List ResolvedRecord :=
  rs.foldl upsertDedup []

/-- Deduplicated, enriched fact record (spec §3): synthetic `job_id`,
canonical fields, extracted skills, description for vectorization. -/
structure CanonicalJob where
  job_id : Nat
  title : String
  company : String
  location_text : String
  published_at : String
  skills : List String
  description : String
  source : String
  duplicate_flag : Bool
  deriving Repr, DecidableEq

/-- Modelled from the spec: projection of one retained record into the fact
table, preserving the canonical fields that make up the dedup key
(missing source: `dsde/src` canonicalizer). -/
def projectJob (i : Nat) (r : ResolvedRecord) : CanonicalJob :=
  { job_id := i
    title := r.title
    company := r.company
    location_text := r.location_text
    published_at := r.published_at
    skills := (tokensBy (fun c => c = ',') (r.skills_raw.getD "")).map normalize
                |>.filter (fun s => s ≠ "")
    description := r.title ++ " " ++ (r.skills_raw.getD "")
    source := r.source
    duplicate_flag := false }

/-- The dedup key of a canonical job (same composite identity as
`dedupKey`, spec §4.3). -/
def jobKey (j : CanonicalJob) : String × String × String × String :=
  (normalize j.title, normalize j.company, normalize j.location_text,
    datePart j.published_at)

/-- Modelled from the spec: the Canonicalizer — dedup then star-schema
projection, `job_id`s assigned in order of first appearance
(missing source: `dsde/src` canonicalizer). -/
def canonicalize (rs : List ResolvedRecord) : List CanonicalJob :=
  (dedupRecords rs).enum.map (fun p => projectJob p.1 p.2)

/-! ### C1: dedup-key uniqueness of the canonical job set -/

lemma dedupKey_retain (x r : ResolvedRecord) :
    dedupKey (retain x r) = dedupKey x ∨ dedupKey (retain x r) = dedupKey r := by
  unfold retain
  split
  · exact Or.inr rfl
  · split
    · exact Or.inr rfl
    · exact Or.inl rfl

lemma keys_upsertDedup_mem (acc : List ResolvedRecord) (r : ResolvedRecord)
    (h : acc.any (fun x => dedupKey x == dedupKey r) = true) :
    (upsertDedup acc r).map dedupKey = acc.map dedupKey := by
  unfold upsertDedup
  rw [if_pos h, List.map_map]
  apply List.map_congr_left
  intro x _
  simp only [Function.comp_apply]
  split
  · rename_i hx
    rcases dedupKey_retain x r with h1 | h1
    · exact h1
    · rw [h1]
      exact (beq_iff_eq.mp hx).symm
  · rfl

lemma nodup_keys_upsertDedup (acc : List ResolvedRecord) (r : ResolvedRecord)
    (h : (acc.map dedupKey).Nodup) :
    ((upsertDedup acc r).map dedupKey).Nodup := by
  by_cases hmem : acc.any (fun x => dedupKey x == dedupKey r) = true
  · rw [keys_upsertDedup_mem acc r hmem]; exact h
  · unfold upsertDedup
    rw [if_neg hmem, List.map_append, List.map_singleton]
    apply List.Nodup.append h (List.nodup_singleton _)
    intro k hk hk'
    rw [List.mem_singleton] at hk'
    subst hk'
    rw [List.mem_map] at hk
    obtain ⟨x, hx, hxk⟩ := hk
    apply hmem
    rw [List.any_eq_true]
    exact ⟨x, hx, beq_iff_eq.mpr hxk⟩

lemma nodup_keys_dedup_aux (rs : List ResolvedRecord)
    (acc : List ResolvedRecord) (h : (acc.map dedupKey).Nodup) :
    ((rs.foldl upsertDedup acc).map dedupKey).Nodup := by
  induction rs generalizing acc with
  | nil => exact h
  | cons r rest ih =>
      exact ih (upsertDedup acc r) (nodup_keys_upsertDedup acc r h)

lemma nodup_keys_dedupRecords (rs : List ResolvedRecord) :
    ((dedupRecords rs).map dedupKey).Nodup :=
  nodup_keys_dedup_aux rs [] (by simp)

lemma jobKey_projectJob (i : Nat) (r : ResolvedRecord) :
    jobKey (projectJob i r) = dedupKey r := rfl

/-- C1.  For every input dataset, the CanonicalJob set produced by the
Canonicalizer contains no two entries sharing a dedup key
`(normalize(title), normalize(company), normalize(location_text),
date_part(published_at))`. -/
theorem canonicalize_dedupKey_unique (rs : List ResolvedRecord) :
    (canonicalize rs).Pairwise (fun a b => jobKey a ≠ jobKey b) := by
  have h := nodup_keys_dedupRecords rs
  have hkeys : (canonicalize rs).map jobKey = (dedupRecords rs).map dedupKey := by
    unfold canonicalize
    rw [List.map_map]
    have : (jobKey ∘ fun p : Nat × ResolvedRecord => projectJob p.1 p.2)
        = (fun p : Nat × ResolvedRecord => dedupKey p.2) := by
      funext p
      exact jobKey_projectJob p.1 p.2
    rw [this]
    calc (dedupRecords rs).enum.map (fun p => dedupKey p.2)
        = ((dedupRecords rs).enum.map Prod.snd).map dedupKey := by
          rw [List.map_map]; rfl
      _ = (dedupRecords rs).map dedupKey := by rw [List.enum_map_snd]
  rw [← hkeys] at h
  exact List.pairwise_map.mp h

/-! ## Skill Graph Builder (spec §4.4), node/edge types from
`web/src/lib/artifacts/types.ts` (`SkillGraphNode`, `SkillGraphEdge`). -/

/-- Node of the skill co-occurrence graph: `{id, label, count}`
(`SkillGraphNode` in `web/src/lib/artifacts/types.ts`). -/
structure SkillNode where
  id : String
  label : String
  count : Nat
  deriving Repr, DecidableEq

/-- Edge of the skill co-occurrence graph: `{source, target, weight}`
(`SkillGraphEdge` in `web/src/lib/artifacts/types.ts`). -/
structure SkillEdge where
  source : String
  target : String
  weight : Nat
  deriving Repr, DecidableEq

/-- The skill graph artifact: `{nodes, edges}` (`SkillGraph` in
`web/src/lib/artifacts/types.ts`). -/
structure SkillGraph where
  nodes : List SkillNode
  edges : List SkillEdge
  deriving Repr, DecidableEq

/-- Modelled from the spec: a job's skill set in canonical form — duplicates
removed and tokens put in ascending lexical order, so that unordered pairs
get one canonical orientation (missing source: `dsde/src` graph builder). -/
def canonSkills (skills : List String) : List String :=
  (skills.dedup).insertionSort strLe

/-- All unordered pairs of distinct positions of a list, each pair keeping
the list's order. -/
def pairsOf : List String → List (String × String)
  | [] => []
  | a :: rest => (rest.map fun b => (a, b)) ++ pairsOf rest

/-- Modelled from the spec: per-skill mention counter — the number of
CanonicalJobs containing that skill (missing source: `dsde/src` graph
builder). -/
def mentionCount (jobs : List CanonicalJob) (s : String) : Nat :=
  jobs.countP (fun j => (canonSkills j.skills).contains s)

/-- Modelled from the spec: co-occurrence weight — the number of
CanonicalJobs in which both skills co-occur (missing source: `dsde/src`
graph builder). -/
def coWeight (jobs : List CanonicalJob) (a b : String) : Nat :=
  jobs.countP (fun j =>
    (canonSkills j.skills).contains a && (canonSkills j.skills).contains b)

/-- All distinct skills mentioned across the job set. -/
def allSkills (jobs : List CanonicalJob) : List String :=
  ((jobs.map (fun j => canonSkills j.skills)).flatten).dedup

/-- All unordered skill pairs that co-occur in at least one job (the counter
structure is built lazily: only incremented pairs exist, spec §4.4). -/
def allPairs (jobs : List CanonicalJob) : List (String × String) :=
  ((jobs.map (fun j => pairsOf (canonSkills j.skills))).flatten).dedup

/-- Modelled from the spec: node list `{id, label, count}` before sorting
(missing source: `dsde/src` graph builder). -/
def buildNodes (jobs : List CanonicalJob) : List SkillNode :=
  (allSkills jobs).map (fun s => ⟨s, s, mentionCount jobs s⟩)

/-- Modelled from the spec: edge list `{source, target, weight}` before
sorting (missing source: `dsde/src` graph builder). -/
def buildEdges (jobs : List CanonicalJob) : List SkillEdge :=
  (allPairs jobs).map (fun p => ⟨p.1, p.2, coWeight jobs p.1 p.2⟩)

/-- Node ordering of spec §4.4: descending by count, ties broken by
ascending lexical order of the skill label. -/
def nodeLE (x y : SkillNode) : Prop :=
  y.count < x.count ∨ (x.count = y.count ∧ strLe x.label y.label)

/-- Edge ordering of spec §4.4: descending by weight, ties broken by
ascending lexical order of the skill labels (source, then target). -/
def edgeLE (x y : SkillEdge) : Prop :=
  y.weight < x.weight ∨ (x.weight = y.weight ∧
    (strLt x.source y.source ∨ (x.source = y.source ∧ strLe x.target y.target)))

instance : DecidableRel nodeLE := fun x y =>
  inferInstanceAs (Decidable (y.count < x.count ∨
    (x.count = y.count ∧ strLe x.label y.label)))

instance : DecidableRel edgeLE := fun x y =>
  inferInstanceAs (Decidable (y.weight < x.weight ∨ (x.weight = y.weight ∧
    (strLt x.source y.source ∨
      (x.source = y.source ∧ strLe x.target y.target)))))

instance : IsTotal SkillNode nodeLE :=
  ⟨fun x y => by
    unfold nodeLE
    rcases lt_trichotomy x.count y.count with h | h | h
    · exact Or.inr (Or.inl h)
    · rcases strLe_total x.label y.label with hl | hl
      · exact Or.inl (Or.inr ⟨h, hl⟩)
      · exact Or.inr (Or.inr ⟨h.symm, hl⟩)
    · exact Or.inl (Or.inl h)⟩

instance : IsTrans SkillNode nodeLE :=
  ⟨fun x y z hxy hyz => by
    unfold nodeLE at hxy hyz ⊢
    rcases hxy with h1 | ⟨e1, l1⟩ <;> rcases hyz with h2 | ⟨e2, l2⟩
    · exact Or.inl (h2.trans h1)
    · exact Or.inl (by omega)
    · exact Or.inl (by omega)
    · exact Or.inr ⟨e1.trans e2, strLe_trans l1 l2⟩⟩

instance : IsTotal SkillEdge edgeLE :=
  ⟨fun x y => by
    unfold edgeLE
    rcases lt_trichotomy x.weight y.weight with h | h | h
    · exact Or.inr (Or.inl h)
    · rcases strLt_or_ge x.source y.source with hs | hs | hs
      · exact Or.inl (Or.inr ⟨h, Or.inl hs⟩)
      · exact Or.inr (Or.inr ⟨h.symm, Or.inl hs⟩)
      · rcases strLe_total x.target y.target with ht | ht
        · exact Or.inl (Or.inr ⟨h, Or.inr ⟨hs, ht⟩⟩)
        · exact Or.inr (Or.inr ⟨h.symm, Or.inr ⟨hs.symm, ht⟩⟩)
    · exact Or.inl (Or.inl h)⟩

instance : IsTrans SkillEdge edgeLE :=
  ⟨fun x y z hxy hyz => by
    unfold edgeLE at hxy hyz ⊢
    rcases hxy with h1 | ⟨e1, s1⟩ <;> rcases hyz with h2 | ⟨e2, s2⟩
    · exact Or.inl (h2.trans h1)
    · exact Or.inl (by omega)
    · exact Or.inl (by omega)
    · refine Or.inr ⟨e1.trans e2, ?_⟩
      rcases s1 with hs1 | ⟨es1, ht1⟩ <;> rcases s2 with hs2 | ⟨es2, ht2⟩
      · exact Or.inl (strLt_trans hs1 hs2)
      · exact Or.inl (es2 ▸ hs1)
      · exact Or.inl (es1 ▸ hs2)
      · exact Or.inr ⟨es1.trans es2, strLe_trans ht1 ht2⟩⟩

/-- Modelled from the spec: the Skill Graph Builder's output — node list and
edge list, both sorted descending by count/weight with ties broken by
ascending lexical order (missing source: `dsde/src` graph builder). -/
def buildGraph (jobs : List CanonicalJob) : SkillGraph :=
  ⟨(buildNodes jobs).insertionSort nodeLE,
   (buildEdges jobs).insertionSort edgeLE⟩

/-- The graph's weight query `skill_graph.weight(a,b)`: the weight of the
edge joining `a` and `b` in either orientation, `0` when absent. -/
def gWeight (g : SkillGraph) (a b : String) : Nat :=
  match g.edges.find? (fun e =>
      (e.source == a && e.target == b) || (e.source == b && e.target == a)) with
  | some e => e.weight
  | none => 0

/-! ### C2: symmetric weights, no self-edges -/

lemma nodup_canonSkills (l : List String) : (canonSkills l).Nodup :=
  ((List.perm_insertionSort _ _).nodup_iff).mpr (List.nodup_dedup l)

lemma pairsOf_ne {l : List String} (hl : l.Nodup) {a b : String}
    (h : (a, b) ∈ pairsOf l) : a ≠ b := by
  induction l with
  | nil => simp [pairsOf] at h
  | cons c rest ih =>
      rw [List.nodup_cons] at hl
      unfold pairsOf at h
      rw [List.mem_append] at h
      rcases h with h | h
      · rw [List.mem_map] at h
        obtain ⟨x, hx, he⟩ := h
        obtain ⟨hca, hxb⟩ := Prod.mk.injEq .. ▸ he
        intro hab
        exact hl.1 (by rw [hca, hab, ← hxb]; exact hx)
      · exact ih hl.2 h

lemma buildEdges_ne {jobs : List CanonicalJob} {e : SkillEdge}
    (h : e ∈ buildEdges jobs) : e.source ≠ e.target := by
  unfold buildEdges at h
  rw [List.mem_map] at h
  obtain ⟨p, hp, he⟩ := h
  unfold allPairs at hp
  rw [List.mem_dedup, List.mem_flatten] at hp
  obtain ⟨l, hl, hpl⟩ := hp
  rw [List.mem_map] at hl
  obtain ⟨j, _, hj⟩ := hl
  subst hj
  have hne : p.1 ≠ p.2 := pairsOf_ne (nodup_canonSkills j.skills) (by
    rcases p with ⟨a, b⟩; exact hpl)
  rw [← he]
  exact hne

/-- C2.  For every pair of skills `a`, `b`, the skill graph's edge weight is
symmetric (`weight(a,b) = weight(b,a)`), and no edge of the graph has its
source equal to its target (no self-edges). -/
theorem skillGraph_symm_noSelfEdge (jobs : List CanonicalJob) (a b : String) :
    gWeight (buildGraph jobs) a b = gWeight (buildGraph jobs) b a ∧
    ∀ e ∈ (buildGraph jobs).edges, e.source ≠ e.target := by
  constructor
  · unfold gWeight
    have hpred : (fun e : SkillEdge =>
        (e.source == a && e.target == b) || (e.source == b && e.target == a))
        = (fun e : SkillEdge =>
        (e.source == b && e.target == a) || (e.source == a && e.target == b)) := by
      funext e
      exact Bool.or_comm _ _
    rw [hpred]
  · intro e he
    have : e ∈ buildEdges jobs := by
      have hperm := List.perm_insertionSort edgeLE (buildEdges jobs)
      exact hperm.mem_iff.mp he
    exact buildEdges_ne this

/-- A concrete one-job corpus used as evaluation input. -/
def jobsW : List CanonicalJob :=
  [{ job_id := 0, title := "Data Engineer", company := "Acme",
     location_text := "Remote", published_at := "2024-01-01",
     skills := ["a", "b"], description := "a b", source := "kaggle",
     duplicate_flag := false }]

/-- Witness for C2 at a concrete input: the two-skill job yields the edge
`a—b`, whose endpoints differ, and the weight query is symmetric. -/
theorem skillGraph_symm_noSelfEdge_witness :
    gWeight (buildGraph jobsW) "a" "b" = gWeight (buildGraph jobsW) "b" "a" ∧
    (⟨"a", "b", 1⟩ : SkillEdge).source ≠ (⟨"a", "b", 1⟩ : SkillEdge).target :=
  ⟨(skillGraph_symm_noSelfEdge jobsW "a" "b").1,
   (skillGraph_symm_noSelfEdge jobsW "a" "b").2 ⟨"a", "b", 1⟩ (by decide)⟩

/-! ### C5: builder output sorted for deterministic top-N truncation -/

/-- C5.  The Skill Graph Builder's output node list and edge list are each
sorted by their ordering (descending count/weight, ties by ascending lexical
label order), so top-N truncation of either list is deterministic. -/
theorem skillGraph_output_sorted (jobs : List CanonicalJob) :
    (buildGraph jobs).nodes.Sorted nodeLE ∧
    (buildGraph jobs).edges.Sorted edgeLE :=
  ⟨List.sorted_insertionSort nodeLE (buildNodes jobs),
   List.sorted_insertionSort edgeLE (buildEdges jobs)⟩

/-! ## Recommender (spec §4.5): TF-IDF vectors, cosine similarity,
deterministic ranking, reason extraction.  The recommender's source
(`dsde/src`) is absent; it is modelled from the spec.  Scores are real
numbers standing for the floating-point values of the code. -/

/-- Dot product of two term-weight vectors over a fixed vocabulary
(vocabulary frozen after corpus vectorization, spec §4.5). -/
def dotProd (vocab : Finset String) (u v : String → ℝ) : ℝ :=
  ∑ t ∈ vocab, u t * v t

/-- Euclidean norm of a term-weight vector. -/
noncomputable def vecNorm (vocab : Finset String) (u : String → ℝ) : ℝ :=
  Real.sqrt (dotProd vocab u u)

/-- Modelled from the spec: cosine similarity between a profile's vector
and a job's vector (missing source: `dsde/src` recommender). -/
noncomputable def cosSim (vocab : Finset String) (u v : String → ℝ) : ℝ :=
  dotProd vocab u v / (vecNorm vocab u * vecNorm vocab v)

/-- Modelled from the spec: the recommendation score — cosine similarity
with negative values clamped to 0 (missing source: `dsde/src`
recommender). -/
noncomputable def simScore (vocab : Finset String) (u v : String → ℝ) : ℝ :=
  max 0 (cosSim vocab u v)

/-! ### C3: scores lie in `[0, 1]` -/

lemma dotProd_self_eq_sq (vocab : Finset String) (u : String → ℝ) :
    dotProd vocab u u = ∑ t ∈ vocab, u t ^ 2 := by
  unfold dotProd
  apply Finset.sum_congr rfl
  intro t _
  ring

lemma dotProd_le_norms (vocab : Finset String) (u v : String → ℝ) :
    dotProd vocab u v ≤ vecNorm vocab u * vecNorm vocab v := by
  unfold vecNorm
  rw [dotProd_self_eq_sq, dotProd_self_eq_sq]
  exact Real.sum_mul_le_sqrt_mul_sqrt vocab u v

/-- C3.  For every profile vector and every job vector, the Recommender's
similarity score satisfies `0 ≤ score ≤ 1`: negative cosine values are
clamped to 0, and Cauchy-Schwarz bounds the cosine above by 1.  The scores
of every `demo_recs.json` recommendation list are values of this
function. -/
theorem simScore_mem_unit (vocab : Finset String) (u v : String → ℝ) :
    0 ≤ simScore vocab u v ∧ simScore vocab u v ≤ 1 := by
  constructor
  · exact le_max_left 0 _
  · apply max_le (by norm_num)
    unfold cosSim
    rcases lt_or_le 0 (vecNorm vocab u * vecNorm vocab v) with hpos | hle
    · exact (div_le_one hpos).mpr (dotProd_le_norms vocab u v)
    · have h0 : vecNorm vocab u * vecNorm vocab v = 0 :=
        le_antisymm hle
          (mul_nonneg (Real.sqrt_nonneg _) (Real.sqrt_nonneg _))
      rw [h0, div_zero]
      norm_num

/-! ### C4: deterministic ranking -/

/-- A recommendation `{job_id, score, reasons[]}` (spec §3; `DemoRec` rows
of `demo_recs.json` carry the same `job_id`/`score`/`reasons` fields,
`web/src/lib/artifacts/types.ts`). -/
structure Recommendation where
  job_id : String
  score : ℝ
  reasons : List String

/-- Ranking order of spec §4.5: descending by score, ties broken by
ascending `job_id` for determinism. -/
def recLE (x y : Recommendation) : Prop :=
  y.score < x.score ∨ (x.score = y.score ∧ strLe x.job_id y.job_id)

noncomputable instance : DecidableRel recLE := fun _ _ => Classical.dec _

instance : IsTotal Recommendation recLE :=
  ⟨fun x y => by
    unfold recLE
    rcases lt_trichotomy x.score y.score with h | h | h
    · exact Or.inr (Or.inl h)
    · rcases strLe_total x.job_id y.job_id with hl | hl
      · exact Or.inl (Or.inr ⟨h, hl⟩)
      · exact Or.inr (Or.inr ⟨h.symm, hl⟩)
    · exact Or.inl (Or.inl h)⟩

instance : IsTrans Recommendation recLE :=
  ⟨fun x y z hxy hyz => by
    unfold recLE at hxy hyz ⊢
    rcases hxy with h1 | ⟨e1, l1⟩ <;> rcases hyz with h2 | ⟨e2, l2⟩
    · exact Or.inl (h2.trans h1)
    · exact Or.inl (by rw [← e2]; exact h1)
    · exact Or.inl (by rw [e1]; exact h2)
    · exact Or.inr ⟨e1.trans e2, strLe_trans l1 l2⟩⟩

lemma strLe_antisymm {a b : String} (h1 : strLe a b) (h2 : strLe b a) :
    a = b :=
  str_eq_of_data_eq (lexLtB_eq_of_not h2 h1)

/-- Modelled from the spec: the final ranking pass of
`recommend(profile_text, corpus)` — sort by `recLE` (missing source:
`dsde/src` recommender). -/
noncomputable def rankRecs (l : List Recommendation) : List Recommendation :=
  l.insertionSort recLE

lemma recLE_antisymm_key {a b : Recommendation}
    (h1 : recLE a b) (h2 : recLE b a) : a.job_id = b.job_id := by
  rcases h1 with h1 | ⟨e1, le1⟩ <;> rcases h2 with h2 | ⟨e2, le2⟩
  · exact absurd h2 (lt_asymm h1)
  · exact absurd h1 (by rw [e2]; exact lt_irrefl _)
  · exact absurd h2 (by rw [e1]; exact lt_irrefl _)
  · exact strLe_antisymm le1 le2

lemma sorted_unique_recs : ∀ (l₁ l₂ : List Recommendation),
    l₁.Perm l₂ → (l₁.map Recommendation.job_id).Nodup →
    l₁.Sorted recLE → l₂.Sorted recLE → l₁ = l₂
  | [], l₂, hperm, _, _, _ => (hperm.symm.eq_nil).symm
  | a :: t, l₂, hperm, hnodup, hs₁, hs₂ => by
      cases l₂ with
      | nil => exact absurd hperm.eq_nil (by simp)
      | cons b t₂ =>
          have hab : a = b := by
            by_contra hne
            have hbmem : b ∈ a :: t := hperm.mem_iff.mpr (List.mem_cons_self b t₂)
            have hamem : a ∈ b :: t₂ := hperm.mem_iff.mp (List.mem_cons_self a t)
            have hbt : b ∈ t := by
              rcases List.mem_cons.mp hbmem with h | h
              · exact absurd h.symm hne
              · exact h
            have hat₂ : a ∈ t₂ := by
              rcases List.mem_cons.mp hamem with h | h
              · exact absurd h hne
              · exact h
            have hr1 : recLE a b := List.rel_of_sorted_cons hs₁ b hbt
            have hr2 : recLE b a := List.rel_of_sorted_cons hs₂ a hat₂
            have hkey : a.job_id = b.job_id := recLE_antisymm_key hr1 hr2
            rw [List.map_cons, List.nodup_cons] at hnodup
            exact hnodup.1
              (hkey ▸ List.mem_map_of_mem Recommendation.job_id hbt)
          subst hab
          have hperm' : t.Perm t₂ := hperm.cons_inv
          have htail := sorted_unique_recs t t₂ hperm'
            (by rw [List.map_cons, List.nodup_cons] at hnodup
                exact hnodup.2)
            hs₁.of_cons hs₂.of_cons
          rw [htail]

/-- C4.  The Recommender's ranking is fully deterministic: for any two runs
that score the same set of recommendations (in any accumulation order),
as long as job ids are distinct the ranked output lists — scores, order and
reasons — are identical. -/
theorem rankRecs_deterministic (l₁ l₂ : List Recommendation)
    (hperm : l₁.Perm l₂)
    (hnodup : (l₁.map Recommendation.job_id).Nodup) :
    rankRecs l₁ = rankRecs l₂ := by
  apply sorted_unique_recs
  · exact ((List.perm_insertionSort recLE l₁).trans hperm).trans
      (List.perm_insertionSort recLE l₂).symm
  · exact ((List.perm_insertionSort recLE l₁).map
      Recommendation.job_id).nodup_iff.mpr hnodup
  · exact List.sorted_insertionSort recLE l₁
  · exact List.sorted_insertionSort recLE l₂

/-- Witness for C4: ranking the same singleton input twice yields the same
output list. -/
theorem rankRecs_deterministic_witness :
    rankRecs [⟨"j1", 1, ["python"]⟩] = rankRecs [⟨"j1", 1, ["python"]⟩] :=
  rankRecs_deterministic [⟨"j1", 1, ["python"]⟩] [⟨"j1", 1, ["python"]⟩]
    (List.Perm.refl _) (by simp)

/-! ### C8: reason extraction cap and shared-term guarantee -/

/-- Modelled from the spec: the stop-word list excluded from reasons
(missing source: `dsde/src` recommender). -/
def STOP_WORDS : List String :=
  ["a", "an", "and", "the", "for", "with", "of", "to", "in", "on"]

/-- Modelled from the spec: minimum length of a reason term
(missing source: `dsde/src` recommender). -/
def MIN_TERM_LEN : Nat := 3

/-- Modelled from the spec: the fixed cap on reasons per recommendation
(missing source: `dsde/src` recommender). -/
def REASON_CAP : Nat := 4

/-- The distinct lower-cased alphanumeric terms of a text. -/
def termsOf (s : String) : List String :=
  (tokensBy (fun c => !c.isAlphanum) (lowerStr s)).dedup

/-- A term eligible as a reason: not a stop-word and long enough. -/
def goodTerm (t : String) : Bool :=
  !STOP_WORDS.contains t && decide (MIN_TERM_LEN ≤ t.length)

/-- Reason candidates ordered by descending pairwise TF-IDF product `w`,
ties broken by ascending lexical order. -/
def reasonRel (w : String → ℚ) (x y : String) : Prop :=
  w y < w x ∨ (w x = w y ∧ strLe x y)

instance (w : String → ℚ) : DecidableRel (reasonRel w) := fun x y =>
  inferInstanceAs (Decidable (w y < w x ∨ (w x = w y ∧ strLe x y)))

/-- Modelled from the spec: reason extraction — the terms present in both
the profile and the job, excluding stop-words and short terms, ordered by
highest pairwise TF-IDF product `w`, truncated to the fixed cap
(missing source: `dsde/src` recommender). -/
def reasonsFor (w : String → ℚ) (profile job : String) : List String :=
  (((termsOf profile).filter
      (fun t => (termsOf job).contains t && goodTerm t)).insertionSort
    (reasonRel w)).take REASON_CAP

/-- The presentation layer's reason display
(`rec.reasons.slice(0, 4)` in
`web/app/projects/jobscope/components/RecommendationEngine.tsx`). -/
def displayReasons (rs : List String) : List String := rs.take 4

/-- C8.  The Recommender returns at most 4 reasons, each a term present in
both the profile and the job, excluding stop-words and terms shorter than
the minimum length; the presentation likewise never displays more than 4
reasons per recommendation. -/
theorem reasons_capped_and_shared (w : String → ℚ) (profile job : String) :
    (reasonsFor w profile job).length ≤ 4 ∧
    (∀ t ∈ reasonsFor w profile job,
      t ∈ termsOf profile ∧ t ∈ termsOf job ∧
      STOP_WORDS.contains t = false ∧ MIN_TERM_LEN ≤ t.length) ∧
    (∀ rs : List String, (displayReasons rs).length ≤ 4) := by
  refine ⟨?_, ?_, ?_⟩
  · unfold reasonsFor REASON_CAP
    exact List.length_take_le 4 _
  · intro t ht
    unfold reasonsFor at ht
    have hsort := List.mem_of_mem_take ht
    rw [List.mem_insertionSort] at hsort
    rw [List.mem_filter] at hsort
    obtain ⟨hmem, hpred⟩ := hsort
    rw [Bool.and_eq_true] at hpred
    obtain ⟨hcont, hgood⟩ := hpred
    unfold goodTerm at hgood
    rw [Bool.and_eq_true, Bool.not_eq_true', decide_eq_true_eq] at hgood
    refine ⟨hmem, ?_, hgood.1, hgood.2⟩
    rw [List.contains_iff_exists_mem_beq] at hcont
    obtain ⟨x, hx, hbeq⟩ := hcont
    rwa [beq_iff_eq.mp hbeq]
  · intro rs
    unfold displayReasons
    exact List.length_take_le 4 rs

/-- Witness for C8 at a concrete input: "python" is returned as a reason
for a profile and job that share it, and it satisfies all the
guarantees. -/
theorem reasons_capped_and_shared_witness :
    (reasonsFor (fun _ => 0) "Python and SQL" "python developer").length ≤ 4 ∧
    ("python" ∈ termsOf "Python and SQL" ∧
     "python" ∈ termsOf "python developer" ∧
     STOP_WORDS.contains "python" = false ∧
     MIN_TERM_LEN ≤ "python".length) :=
  ⟨(reasons_capped_and_shared (fun _ => 0) "Python and SQL"
      "python developer").1,
   (reasons_capped_and_shared (fun _ => 0) "Python and SQL"
      "python developer").2.1 "python" (by decide)⟩

/-! ## Schema Resolver (spec §4.1) and pipeline halt (spec §4.6/§7).
The resolver source (`dsde/src`) is absent; modelled from the spec. -/

/-- `UnresolvedFieldError`: a required canonical field has no matching
source column (spec §7). -/
structure UnresolvedFieldError where
  field : String
  deriving Repr, DecidableEq

/-- An alias table `{canonical_field: [accepted_source_names...]}`
(spec §4.1). -/
abbrev AliasTable := List (String × List String)

/-- Case-insensitive column-name comparison (spec §4.1). -/
def lowerEq (a b : String) : Bool := lowerStr a == lowerStr b

/-- Modelled from the spec: a canonical field is populated from the first
matching source column found — case-insensitive, first-match-wins in the
alias table's declared order (missing source: `dsde/src` resolver). -/
def resolveField (cols : List String) (aliases : List String) :
    Option String :=
  aliases.findSome? (fun a => cols.find? (fun c => lowerEq c a))

/-- The accepted source names an alias table declares for a field. -/
def aliasesOf (table : AliasTable) (f : String) : List String :=
  ((table.find? (fun p => p.1 == f)).map Prod.snd).getD []

/-- Modelled from the spec: the Schema Resolver — fails with
`UnresolvedFieldError` when a required canonical field has no matching
source column; otherwise resolves every field of the alias table, leaving
unmatched optional fields absent (missing source: `dsde/src` resolver). -/
def resolveSchema (cols : List String) (table : AliasTable)
    (required : List String) :
    Except UnresolvedFieldError (List (String × Option String)) :=
  match required.find?
      (fun f => (resolveField cols (aliasesOf table f)).isNone) with
  | some f => .error ⟨f⟩
  | none => .ok (table.map (fun p => (p.1, resolveField cols p.2)))

/-- Task status of a pipeline run (spec §3, `PipelineRun`). -/
inductive RunStatus where
  | SUCCEEDED
  | FAILED
  deriving Repr, DecidableEq

/-- The downstream-visible outcome of a run: the artifact store (name ×
content) and the overall status. -/
structure PipelineResult where
  artifacts : List (String × String)
  status : RunStatus
  deriving Repr, DecidableEq

/-- Modelled from the spec: the orchestrated run up to schema resolution —
on `UnresolvedFieldError` the pipeline halts as FAILED before any canonical
or exported artifact is written or overwritten; otherwise the exporter
materializes the artifacts (missing source: `dsde/src` orchestrator). -/
def runPipeline (prior : List (String × String)) (cols : List String)
    (table : AliasTable) (required : List String)
    (exporter : List (String × Option String) → List (String × String)) :
    PipelineResult :=
  match resolveSchema cols table required with
  | .error _ => ⟨prior, .FAILED⟩
  | .ok m => ⟨exporter m, .SUCCEEDED⟩

/-! ### C6: required fields halt the pipeline; optional fields do not -/

/-- C6.  When a required canonical field has no matching source column, the
Schema Resolver fails with `UnresolvedFieldError` and the pipeline halts
(FAILED) with the prior artifacts untouched; when every required field
matches, resolution succeeds, with unmatched optional fields left absent
(`none`) in the resolved mapping. -/
theorem schemaResolver_required_halts (cols : List String)
    (table : AliasTable) (required : List String)
    (prior : List (String × String))
    (exporter : List (String × Option String) → List (String × String)) :
    ((∃ f ∈ required, resolveField cols (aliasesOf table f) = none) →
      (∃ f ∈ required, resolveSchema cols table required = .error ⟨f⟩ ∧
        resolveField cols (aliasesOf table f) = none) ∧
      runPipeline prior cols table required exporter =
        ⟨prior, RunStatus.FAILED⟩) ∧
    ((∀ f ∈ required, (resolveField cols (aliasesOf table f)).isSome) →
      resolveSchema cols table required =
        .ok (table.map (fun p => (p.1, resolveField cols p.2)))) := by
  constructor
  · intro hex
    have hsome : (required.find?
        (fun f => (resolveField cols (aliasesOf table f)).isNone)).isSome := by
      rw [List.find?_isSome]
      obtain ⟨f, hf, hnone⟩ := hex
      exact ⟨f, hf, by rw [hnone]; rfl⟩
    obtain ⟨f, hfind⟩ := Option.isSome_iff_exists.mp hsome
    have hmem : f ∈ required := List.mem_of_find?_eq_some hfind
    have hp := List.find?_some hfind
    simp only [Option.isNone_iff_eq_none] at hp
    constructor
    · refine ⟨f, hmem, ?_, hp⟩
      unfold resolveSchema
      rw [hfind]
    · unfold runPipeline resolveSchema
      rw [hfind]
  · intro hall
    have hnone : required.find?
        (fun f => (resolveField cols (aliasesOf table f)).isNone) = none := by
      rw [List.find?_eq_none]
      intro f hf
      have := hall f hf
      simp only [Option.isNone_iff_eq_none]
      intro hc
      rw [hc] at this
      exact absurd this (by simp)
    unfold resolveSchema
    rw [hnone]

/-- The spec's illustrative alias table (spec §6). -/
def aliasTableW : AliasTable :=
  [("title", ["job_title", "position", "title"]),
   ("company", ["company_name", "employer", "company"]),
   ("location_text", ["location", "job_location"]),
   ("skills_raw", ["skills", "required_skills"]),
   ("published_at", ["date_posted", "posted_at", "published_at"])]

/-- Required canonical fields of the witness scenario. -/
def requiredW : List String := ["title", "company"]

/-- Prior artifact store of the witness scenario. -/
def priorW : List (String × String) := [("kpi_summary.json", "old")]

/-- Columns missing every alias of the required field `title`. -/
def colsBadW : List String := ["Employer", "Location"]

/-- Columns matching all required fields (case-insensitively) but not the
optional fields `skills_raw` and `published_at`. -/
def colsGoodW : List String := ["Job_Title", "Employer", "Location"]

/-- Witness for C6 at concrete inputs: a dataset missing `title` halts the
run as FAILED with the prior artifacts untouched; a dataset with all
required columns resolves, leaving unmatched optional fields absent. -/
theorem schemaResolver_required_halts_witness :
    runPipeline priorW colsBadW aliasTableW requiredW (fun _ => []) =
      ⟨priorW, RunStatus.FAILED⟩ ∧
    resolveSchema colsGoodW aliasTableW requiredW =
      .ok (aliasTableW.map (fun p => (p.1, resolveField colsGoodW p.2))) :=
  ⟨((schemaResolver_required_halts colsBadW aliasTableW requiredW priorW
      (fun _ => [])).1 (by decide)).2,
   (schemaResolver_required_halts colsGoodW aliasTableW requiredW priorW
      (fun _ => [])).2 (by decide)⟩

/-! ## Artifact Exporter (spec §4.7).  The exporter source (`dsde/src`) is
absent; modelled from the spec. -/

/-- An I/O failure during export (spec §7, `ExportError`). -/
inductive ExportError where
  | ioFailure (msg : String)
  deriving Repr, DecidableEq

/-- One output of an export batch: artifact name and payload to write. -/
structure ExportItem where
  name : String
  payload : String
  deriving Repr, DecidableEq

/-- Modelled from the spec: write every batch item to its temporary
location; the first failure aborts the whole batch (missing source:
`dsde/src` exporter).  `write` stands for the fallible I/O. -/
def writeAll (write : ExportItem → Except ExportError String) :
    List ExportItem → Except ExportError (List (String × String))
  | [] => .ok []
  | it :: rest =>
      match write it with
      | .error e => .error e
      | .ok c =>
          match writeAll write rest with
          | .error e => .error e
          | .ok outs => .ok ((it.name, c) :: outs)

/-- Upsert one artifact into the downstream-visible store. -/
def setArtifact (arts : List (String × String)) (n c : String) :
    List (String × String) :=
  if arts.any (fun p => p.1 == n) then
    arts.map (fun p => if p.1 == n then (n, c) else p)
  else arts ++ [(n, c)]

/-- Atomically commit the fully-written batch over the prior store. -/
def commitAll (outs : List (String × String))
    (prior : List (String × String)) : List (String × String) :=
  outs.foldl (fun acc p => setArtifact acc p.1 p.2) prior

/-- Modelled from the spec: the Artifact Exporter — replaces the prior
artifact set only after the full batch succeeds; on any failure the prior
set is kept unchanged and the run is FAILED (missing source: `dsde/src`
exporter). -/
def exportBatch (write : ExportItem → Except ExportError String)
    (items : List ExportItem) (prior : List (String × String)) :
    PipelineResult :=
  match writeAll write items with
  | .error _ => ⟨prior, .FAILED⟩
  | .ok outs => ⟨commitAll outs prior, .SUCCEEDED⟩

/-! ### C7: all-or-nothing export -/

lemma writeAll_error_mem {write : ExportItem → Except ExportError String} :
    ∀ {items : List ExportItem} {e : ExportError},
      writeAll write items = .error e → ∃ it ∈ items, write it = .error e
  | [], _, h => by simp [writeAll] at h
  | it :: rest, e, h => by
      unfold writeAll at h
      cases hw : write it with
      | error e' =>
          rw [hw] at h
          cases h
          exact ⟨it, List.mem_cons_self it rest, hw⟩
      | ok c =>
          rw [hw] at h
          cases hr : writeAll write rest with
          | error e' =>
              rw [hr] at h
              cases h
              obtain ⟨x, hx, hxe⟩ := writeAll_error_mem hr
              exact ⟨x, List.mem_cons_of_mem it hx, hxe⟩
          | ok outs =>
              rw [hr] at h
              exact absurd h (by simp)

lemma writeAll_ok_names {write : ExportItem → Except ExportError String} :
    ∀ {items : List ExportItem} {outs : List (String × String)},
      writeAll write items = .ok outs →
      outs.map Prod.fst = items.map ExportItem.name
  | [], outs, h => by
      unfold writeAll at h
      cases h
      simp
  | it :: rest, outs, h => by
      unfold writeAll at h
      cases hw : write it with
      | error e => rw [hw] at h; exact absurd h (by simp)
      | ok c =>
          rw [hw] at h
          cases hr : writeAll write rest with
          | error e => rw [hr] at h; exact absurd h (by simp)
          | ok outs' =>
              rw [hr] at h
              cases h
              simp only [List.map_cons]
              rw [writeAll_ok_names hr]

/-- C7.  Every export batch is all-or-nothing: either some write fails and
the downstream-visible artifact set is exactly the prior one with the run
marked FAILED (no some-updated, some-stale mixture), or every item of the
batch was written and committed and the run SUCCEEDED. -/
theorem exportBatch_atomic (write : ExportItem → Except ExportError String)
    (items : List ExportItem) (prior : List (String × String)) :
    (∃ e, writeAll write items = .error e ∧
      exportBatch write items prior = ⟨prior, RunStatus.FAILED⟩ ∧
      ∃ it ∈ items, write it = .error e) ∨
    (∃ outs, writeAll write items = .ok outs ∧
      exportBatch write items prior =
        ⟨commitAll outs prior, RunStatus.SUCCEEDED⟩ ∧
      outs.map Prod.fst = items.map ExportItem.name) := by
  cases hw : writeAll write items with
  | error e =>
      refine Or.inl ⟨e, rfl, ?_, writeAll_error_mem hw⟩
      unfold exportBatch
      rw [hw]
  | ok outs =>
      refine Or.inr ⟨outs, rfl, ?_, writeAll_ok_names hw⟩
      unfold exportBatch
      rw [hw]


/-! ## Client-side artifact loaders
(`web/src/lib/artifacts/fetchers.ts`). -/

/-- The errors a loader can raise: `ArtifactMissingError`, the generic
status `Error`, and the generic parse `Error`
(`web/src/lib/artifacts/fetchers.ts`). -/
inductive FetchError where
  | artifactMissing (path : String) (status : Nat)
  | failedToLoad (path : String) (status : Nat)
  | failedToParse (path : String)
  deriving Repr, DecidableEq

/-- `res.ok` of the Fetch API: the status is in the inclusive range
200-299. -/
def respOk (status : Nat) : Bool := 200 ≤ status && status ≤ 299

/-- `ensureOk` from `web/src/lib/artifacts/fetchers.ts`: a non-OK response
raises `ArtifactMissingError` on status 404 and a generic `Error`
otherwise. -/
def ensureOk (status : Nat) (path : String) : Except FetchError Unit :=
  if !respOk status then
    if status == 404 then .error (.artifactMissing path status)
    else .error (.failedToLoad path status)
  else .ok ()

/-- `fetchJson` from `web/src/lib/artifacts/fetchers.ts`: check the status
with `ensureOk`, then parse the body (`parsed` stands for the outcome of
`res.json()`). -/
def fetchJson {α : Type} (status : Nat) (path : String)
    (parsed : Option α) : Except FetchError α :=
  match ensureOk status path with
  | .error e => .error e
  | .ok _ =>
      match parsed with
      | some v => .ok v
      | none => .error (.failedToParse path)

/-- `fetchCsv` from `web/src/lib/artifacts/fetchers.ts`: check the status
with `ensureOk`, then parse the CSV body into header-keyed rows; parse
errors raise a generic `Error`. -/
def fetchCsv (status : Nat) (path : String)
    (rows : Option (List (List (String × String)))) :
    Except FetchError (List (List (String × String))) :=
  match ensureOk status path with
  | .error e => .error e
  | .ok _ =>
      match rows with
      | some rs => .ok rs
      | none => .error (.failedToParse path)

/-- The result is an `ArtifactMissingError`. -/
def isMissing {α : Type} : Except FetchError α → Prop
  | .error (.artifactMissing _ _) => True
  | _ => False

/-! ### C10: ArtifactMissingError exactly on status 404 -/

/-- C10.  `fetchJson` and `fetchCsv` (through `ensureOk`) raise
`ArtifactMissingError` exactly when the HTTP status is 404; any other
non-OK status raises a generic `Error`; an OK response never raises from
the status check. -/
theorem fetchers_missing_iff_404 {α : Type} (status : Nat) (path : String)
    (parsedJson : Option α)
    (parsedCsv : Option (List (List (String × String)))) :
    (isMissing (ensureOk status path) ↔ status = 404) ∧
    (isMissing (fetchJson status path parsedJson) ↔ status = 404) ∧
    (isMissing (fetchCsv status path parsedCsv) ↔ status = 404) ∧
    (respOk status = false ∧ status ≠ 404 ↔
      ensureOk status path = .error (.failedToLoad path status)) ∧
    (respOk status = true ↔ ensureOk status path = .ok ()) := by
  by_cases h404 : status = 404
  · subst h404
    have hok : respOk 404 = false := by decide
    simp [ensureOk, hok, isMissing, fetchJson, fetchCsv]
  · by_cases hok : respOk status = true
    · have hne : status ≠ 404 := h404
      cases parsedJson <;> cases parsedCsv <;>
        simp [ensureOk, hok, isMissing, fetchJson, fetchCsv, hne]
    · rw [Bool.not_eq_true] at hok
      simp [ensureOk, hok, isMissing, fetchJson, fetchCsv, h404]

/-! ## KPI summary artifact shape (`KpiSummary` in
`web/src/lib/artifacts/types.ts`, loaded by `loadKpiSummary` in
`web/src/lib/artifacts/fetchers.ts`). -/

/-- A minimal JSON value model for artifact shapes. -/
inductive JVal where
  | jnum (n : Int)
  | jstr (s : String)
  | jarr (xs : List JVal)
  | jobj (fields : List (String × JVal))

/-- Field lookup in a JSON object's field list. -/
def jLookup (fields : List (String × JVal)) (n : String) : Option JVal :=
  (fields.find? (fun p => p.1 == n)).map Prod.snd

/-- The `sources` member of `KpiSummary` in
`web/src/lib/artifacts/types.ts`: the fixed-key object
`{ kaggle: number; remotive: number }`. -/
structure KpiSources where
  kaggle : Int
  remotive : Int

/-- `KpiSummary` from `web/src/lib/artifacts/types.ts`: `total_jobs`,
`unique_companies`, the fixed-key `sources`, optional `top_locations`,
optional `generated_at`. -/
structure KpiSummary where
  total_jobs : Int
  unique_companies : Int
  sources : KpiSources
  top_locations : Option (List (String × Int))
  generated_at : Option String

/-- JSON encoding of the fixed-key `sources` object. -/
def kpiSourcesJson (s : KpiSources) : JVal :=
  .jobj [("kaggle", .jnum s.kaggle), ("remotive", .jnum s.remotive)]

/-- JSON encoding of one `top_locations` entry `{location_text, count}`. -/
def locJson (p : String × Int) : JVal :=
  .jobj [("location_text", .jstr p.1), ("count", .jnum p.2)]

/-- JSON encoding of a `KpiSummary` value: exactly the members the
TypeScript type declares, optional members present only when set. -/
def kpiJson (k : KpiSummary) : JVal :=
  .jobj ([("total_jobs", .jnum k.total_jobs),
          ("unique_companies", .jnum k.unique_companies),
          ("sources", kpiSourcesJson k.sources)] ++
         (match k.top_locations with
          | some ls => [("top_locations", .jarr (ls.map locJson))]
          | none => []) ++
         (match k.generated_at with
          | some g => [("generated_at", .jstr g)]
          | none => []))

/-- The spec's claimed shape of `kpi_summary.json` (spec §6), written from
the spec's words for comparison with the code's type: an object whose
`sources` member maps every source name occurring in the data — arbitrary
source names — to its job count. -/
def kpiShapeSpec (j : JVal) (sourceNames : List String) : Prop :=
  ∃ fs, j = .jobj fs ∧
    (∃ n, jLookup fs "total_jobs" = some (.jnum n)) ∧
    (∃ n, jLookup fs "unique_companies" = some (.jnum n)) ∧
    (∃ srcs, jLookup fs "sources" = some (.jobj srcs) ∧
      ∀ s ∈ sourceNames, ∃ n, jLookup srcs s = some (.jnum n))

/-- The amended shape: same members, but `sources` is the fixed-key object
with exactly the `kaggle` and `remotive` counts. -/
def kpiShapeAmended (j : JVal) : Prop :=
  ∃ fs, j = .jobj fs ∧
    (∃ n, jLookup fs "total_jobs" = some (.jnum n)) ∧
    (∃ n, jLookup fs "unique_companies" = some (.jnum n)) ∧
    (∃ nk nr, jLookup fs "sources" =
      some (.jobj [("kaggle", .jnum nk), ("remotive", .jnum nr)]))

lemma kpiJson_sources (k : KpiSummary) :
    ∃ fs, kpiJson k = .jobj fs ∧
      jLookup fs "total_jobs" = some (.jnum k.total_jobs) ∧
      jLookup fs "unique_companies" = some (.jnum k.unique_companies) ∧
      jLookup fs "sources" = some (kpiSourcesJson k.sources) := by
  refine ⟨_, rfl, ?_, ?_, ?_⟩ <;>
    simp [jLookup, List.find?]

/-! ### C9: the `sources` object has a fixed key set -/

/-- C9 counterexample: the claim asserts arbitrary source names, but no
value of the code's `KpiSummary` type can encode a `sources` object
carrying the source name `"linkedin"` — the TypeScript type fixes the keys
to `kaggle` and `remotive`. -/
theorem kpiSummary_not_arbitrary_sources :
    ¬ ∃ k : KpiSummary, kpiShapeSpec (kpiJson k) ["linkedin"] := by
  rintro ⟨k, fs, hfs, -, -, srcs, hsrc, hall⟩
  obtain ⟨fs', hfs', -, -, hsrc'⟩ := kpiJson_sources k
  rw [hfs] at hfs'
  cases hfs'
  rw [hsrc'] at hsrc
  unfold kpiSourcesJson at hsrc
  cases hsrc
  obtain ⟨n, hn⟩ := hall "linkedin" (List.mem_singleton_self _)
  simp [jLookup, List.find?] at hn

/-- C9 amended.  Every `KpiSummary` value encodes to the shape
`{ total_jobs: int, unique_companies: int,
sources: { kaggle: int, remotive: int }, top_locations?, generated_at? }`:
the `sources` object carries the fixed key set `kaggle`/`remotive`, not
arbitrary source names. -/
theorem kpiSummary_shape_fixed_sources (k : KpiSummary) :
    kpiShapeAmended (kpiJson k) := by
  obtain ⟨fs, hfs, h1, h2, h3⟩ := kpiJson_sources k
  exact ⟨fs, hfs, ⟨k.total_jobs, h1⟩, ⟨k.unique_companies, h2⟩,
    ⟨k.sources.kaggle, k.sources.remotive, h3⟩⟩

end JobScope
